import Mathlib

/-
  Verification of the Trivia Nights Pinas scoring core.

  Shallow embedding of the stage-progression state machine and scoring
  engine found in `src/services/gameLogic.ts` and the `LiveGame` component
  (`src/unnamed/part_000`).  JavaScript objects keyed by strings are
  modelled as association lists with JS-object semantics (insertion order,
  assignment overwrites in place, reads of absent keys return `none`);
  JavaScript numbers holding scores, points and stage indices are modelled
  as `Int`.  Host-name resolution and all rendering/export concerns are
  presentation-only and are not part of the embedded core.
-/

namespace TNP

/-! ## Generic JavaScript helpers -/

/-- First-occurrence deduplication with an accumulator: the key order a JS
object ends with after repeated `obj[k] = v` assignments. -/
def jsDedupAcc [DecidableEq α] (acc : List α) : List α → List α
  | [] => acc
  | x :: xs => jsDedupAcc (if x ∈ acc then acc else acc ++ [x]) xs

/-- Keys of a JS object built by inserting the given keys in order
(duplicates keep their first position). -/
def jsDedup [DecidableEq α] (l : List α) : List α :=
  jsDedupAcc [] l

/-- JS `obj[k] = v`: overwrite in place when the key exists, append
otherwise. -/
def objSet (m : List (String × α)) (k : String) (v : α) : List (String × α) :=
  if m.any (fun kv => kv.1 == k) then
    m.map (fun kv => if kv.1 == k then (kv.1, v) else kv)
  else
    m ++ [(k, v)]

/-- JS `if (obj[k] !== undefined) obj[k] = f(obj[k])`: update in place when
the key exists, do nothing otherwise. -/
def objModify (m : List (String × α)) (k : String) (f : α → α) : List (String × α) :=
  m.map (fun kv => if kv.1 == k then (kv.1, f kv.2) else kv)

/-- JS `obj[k]` read: the value at the first matching key, if any. -/
def jsGet (m : List (String × α)) (k : String) : Option α :=
  (m.find? (fun kv => kv.1 == k)).map (fun kv => kv.2)

/-- JS `Array.prototype.indexOf`: index of the first occurrence, `-1` when
absent. -/
def jsIndexOf (l : List Int) (x : Int) : Int :=
  match l with
  | [] => -1
  | y :: ys =>
    if y == x then 0
    else
      let r := jsIndexOf ys x
      if r == -1 then -1 else r + 1

/-! ## Data model (`src/types.ts`) -/

/-- `SETS_PER_GAME` from `gameLogic.ts`. -/
def SETS_PER_GAME : Nat := 4

/-- `CATEGORIES_PER_SET` from `gameLogic.ts`. -/
def CATEGORIES_PER_SET : Nat := 3

/-- `QUESTIONS_PER_CATEGORY` from `gameLogic.ts`. -/
def QUESTIONS_PER_CATEGORY : Nat := 8

/-- The `currentStage` coordinate of a `Game`. -/
structure Stage where
  set : Int
  category : Int
  question : Int
deriving DecidableEq, Repr

/-- `QuestionResult` from `types.ts`. -/
structure QuestionResult where
  setId : Int
  categoryId : Int
  questionIndex : Int
  correctTeamIds : List String
  points : Int
deriving DecidableEq, Repr

/-- `ManualAdjustment`: a signed point correction scoped to a team and a
set (reason and timestamp are presentation-only and omitted). -/
structure ManualAdjustment where
  id : String
  teamId : String
  points : Int
  setId : Int
deriving DecidableEq, Repr

/-- `GameType` from `types.ts`. -/
inductive GameType where
  | Regular
  | Special
deriving DecidableEq, Repr

/-- `GameStatus` from `types.ts`. -/
inductive GameStatus where
  | Upcoming
  | Live
  | Archived
deriving DecidableEq, Repr

/-- `Team` from `types.ts` (fields the scoring core reads). -/
structure Team where
  id : String
  name : String
deriving DecidableEq, Repr

/-- `Game` from `types.ts`, restricted to the fields the scoring core
reads.  `date` is modelled as the numeric timestamp the code obtains via
`new Date(g.date).getTime()`; an absent `manualAdjustments` field is the
empty list; `stickyPoints` and `countInRoyalty` are optional exactly as in
the source. -/
structure Game where
  id : String
  seasonId : String
  type : GameType
  status : GameStatus
  date : Int
  participatingTeamIds : List String
  hasBonusRound : Bool
  countInRoyalty : Option Bool
  stickyPoints : Option Int
  currentStage : Stage
  results : List QuestionResult
  manualAdjustments : List ManualAdjustment
deriving DecidableEq, Repr

/-- `RoyaltyStandings` from `types.ts`. -/
structure RoyaltyStandings where
  teamId : String
  teamName : String
  points : Int
  gamesPlayed : Int
  wins : Int
deriving DecidableEq, Repr

/-! ## `calculateGameScores` (`gameLogic.ts` lines 28-51) -/

/-- `calculateGameScores`: initialize every participating team to 0, add
each result's points to every credited team that is present, then add each
manual adjustment whose team is present. -/
def calculateGameScores (g : Game) : List (String × Int) :=
  let scores := g.participatingTeamIds.foldl (fun m t => objSet m t 0) []
  let scores := g.results.foldl
    (fun m r => r.correctTeamIds.foldl
      (fun m' t => objModify m' t (fun v => v + r.points)) m) scores
  g.manualAdjustments.foldl
    (fun m a => objModify m a.teamId (fun v => v + a.points)) scores

/-- Closed form of the whole-game total `calculateGameScores` assigns to a
team: points per credited occurrence in the ledger plus all of the team's
manual-adjustment deltas. -/
def scoreFor (g : Game) (t : String) : Int :=
  (g.results.map (fun r => (r.correctTeamIds.count t : Int) * r.points)).sum
    + ((g.manualAdjustments.filter (fun a => a.teamId == t)).map
        (fun a => a.points)).sum

/-! ## Ranking (`gameLogic.ts` lines 60-62 and 120-122) -/

/-- `Array.from(new Set(values)).sort((a,b) => b-a)`: the distinct score
values in descending order. -/
def uniqueScoresDesc (values : List Int) : List Int :=
  List.insertionSort (fun a b => b ≤ a) (jsDedup values)

/-- `uniqueScores.indexOf(score) + 1`: the dense competition rank, as
computed identically inside `getTeamHistory` and
`calculateSeasonStandings`. -/
def denseRank (values : List Int) (s : Int) : Int :=
  jsIndexOf (uniqueScoresDesc values) s + 1

/-! ## `getTeamHistory` (`gameLogic.ts` lines 53-80) -/

/-- One entry of the list `getTeamHistory` returns (the host-name
enrichment is presentation-only and omitted). -/
structure HistoryEntry where
  game : Game
  score : Int
  rank : Int
deriving DecidableEq, Repr

/-- `getTeamHistory`: for every archived game the team participated in,
its score (`scores[teamId] || 0`) and dense rank, sorted by game date
descending. -/
def getTeamHistory (teamId : String) (games : List Game) : List HistoryEntry :=
  let hist := (games.filter
      (fun g => g.status == GameStatus.Archived
        && g.participatingTeamIds.contains teamId)).map
    (fun g =>
      let scores := calculateGameScores g
      let score := (jsGet scores teamId).getD 0
      { game := g, score := score,
        rank := denseRank (scores.map (fun kv => kv.2)) score })
  List.insertionSort (fun a b => b.game.date ≤ a.game.date) hist

/-! ## `calculateSeasonStandings` (`gameLogic.ts` lines 82-136) -/

/-- The season-eligibility filter: season matches, status is Archived, and
`countInRoyalty` when present, else `type === 'Regular'`. -/
def seasonEligible (seasonId : String) (g : Game) : Bool :=
  g.seasonId == seasonId
    && g.status == GameStatus.Archived
    && (match g.countInRoyalty with
        | some b => b
        | none => g.type == GameType.Regular)

/-- The zero-initialized standings record a roster team starts with. -/
def zeroStandings (team : Team) : RoyaltyStandings :=
  { teamId := team.id, teamName := team.name,
    points := 0, gamesPlayed := 0, wins := 0 }

/-- `teams.forEach(team => standingsMap[team.id] = {...zeros})`. -/
def initStandings (teams : List Team) : List (String × RoyaltyStandings) :=
  teams.foldl (fun m team => objSet m team.id (zeroStandings team)) []

/-- The per-team mutation applied for one game: `gamesPlayed += 1`, the
participation point, then the rank bonus computed from the game's unique
scores. -/
def applyRankBonus (scores : List (String × Int)) (score : Int)
    (st : RoyaltyStandings) : RoyaltyStandings :=
  let teamRank := denseRank (scores.map (fun kv => kv.2)) score
  let st :=
    { st with gamesPlayed := st.gamesPlayed + 1, points := st.points + 1 }
  if teamRank == 1 then
    { st with points := st.points + 10, wins := st.wins + 1 }
  else if teamRank == 2 then { st with points := st.points + 5 }
  else if teamRank == 3 then { st with points := st.points + 3 }
  else st

/-- One iteration of the `sortedTeams.forEach` loop: skip the entry when
the team is not in the standings map, otherwise apply the mutation. -/
def applyGameToTeam (scores : List (String × Int))
    (m : List (String × RoyaltyStandings)) (e : String × Int) :
    List (String × RoyaltyStandings) :=
  objModify m e.1 (applyRankBonus scores e.2)

/-- Processing of one eligible game: compute its score mapping, sort the
entries by score descending, and fold the per-team mutation over them. -/
def processGame (m : List (String × RoyaltyStandings)) (g : Game) :
    List (String × RoyaltyStandings) :=
  let scores := calculateGameScores g
  let sortedTeams :=
    List.insertionSort (fun p q : String × Int => q.2 ≤ p.2) scores
  sortedTeams.foldl (applyGameToTeam scores) m

/-- `calculateSeasonStandings`: filter eligible games, initialize the
roster, fold every eligible game through `processGame`, and return the
values sorted by points descending. -/
def calculateSeasonStandings (seasonId : String) (games : List Game)
    (teams : List Team) : List RoyaltyStandings :=
  let seasonGames := games.filter (seasonEligible seasonId)
  let final := seasonGames.foldl processGame (initStandings teams)
  List.insertionSort (fun a b : RoyaltyStandings => b.points ≤ a.points)
    (final.map (fun kv => kv.2))

/-! ## `LiveGame` component (`src/unnamed/part_000`) -/

/-- Whether two results share the (setId, categoryId, questionIndex) key,
as tested by the `findIndex` scan in `handleNext`. -/
def sameKey (a b : QuestionResult) : Bool :=
  a.setId == b.setId && a.categoryId == b.categoryId
    && a.questionIndex == b.questionIndex

/-- The composite key of a ledger entry. -/
def qKey (r : QuestionResult) : Int × Int × Int :=
  (r.setId, r.categoryId, r.questionIndex)

/-- The ledger write performed by `handleNext`: replace the first entry
with a matching (set, category, question) key in place, else append. -/
def upsert (ledger : List QuestionResult) (r : QuestionResult) :
    List QuestionResult :=
  match ledger with
  | [] => [r]
  | x :: xs => if sameKey x r then r :: xs else x :: upsert xs r

/-- `manualPoints !== null ? manualPoints : (game.stickyPoints || 1)`:
the point value used for the current question.  Note the JS `||`, under
which a sticky value of `0` is falsy and falls through to `1`. -/
def currentPoints (manualPoints : Option Int) (stickyPoints : Option Int) :
    Int :=
  match manualPoints with
  | some m => m
  | none =>
    match stickyPoints with
    | some s => if s == 0 then 1 else s
    | none => 1

/-- Modelled from the spec: point resolution as §4.4 words it — "if the
operator has entered an explicit point value for the current coordinate,
use it; otherwise fall back to the Game's sticky-points value; if neither
exists, default to 1". -/
def specCurrentPoints (manualPoints : Option Int)
    (stickyPoints : Option Int) : Int :=
  match manualPoints with
  | some m => m
  | none => stickyPoints.getD 1

/-- Steps 3-4 of `handleNext`: increment the question with carries into
category and set, and report whether the set index increased. -/
def advanceStage (st : Stage) : Stage × Bool :=
  let nextSet := st.set
  let nextCat := st.category
  let nextQ := st.question + 1
  let next :=
    if nextQ ≥ (QUESTIONS_PER_CATEGORY : Int) then
      let nextQ := 0
      let nextCat := nextCat + 1
      if nextCat ≥ (CATEGORIES_PER_SET : Int) then
        (nextSet + 1, 0, nextQ)
      else (nextSet, nextCat, nextQ)
    else (nextSet, nextCat, nextQ)
  (⟨next.1, next.2.1, next.2.2⟩, decide (next.1 > st.set))

/-- `handleNext`: build the result for the current coordinate from the
selection and the resolved points, upsert it into the ledger, persist the
points as the new sticky value, and advance the stage. -/
def handleNext (g : Game) (manualPoints : Option Int)
    (selection : List String) : Game :=
  let pts := currentPoints manualPoints g.stickyPoints
  let result : QuestionResult :=
    { setId := g.currentStage.set, categoryId := g.currentStage.category,
      questionIndex := g.currentStage.question,
      correctTeamIds := selection, points := pts }
  let newResults := upsert g.results result
  let nextStage := (advanceStage g.currentStage).1
  { g with results := newResults, stickyPoints := some pts,
           currentStage := nextStage }

/-- `handlePrevious`: decrement the question with underflow borrowing; a
step that would make the set negative returns the game unchanged. -/
def handlePrevious (g : Game) : Game :=
  let nextQ := g.currentStage.question - 1
  let nextCat := g.currentStage.category
  let nextSet := g.currentStage.set
  let next :=
    if nextQ < 0 then
      let nextQ := (QUESTIONS_PER_CATEGORY : Int) - 1
      let nextCat := nextCat - 1
      if nextCat < 0 then
        (nextSet - 1, (CATEGORIES_PER_SET : Int) - 1, nextQ)
      else (nextSet, nextCat, nextQ)
    else (nextSet, nextCat, nextQ)
  if next.1 < 0 then g
  else { g with currentStage := ⟨next.1, next.2.1, next.2.2⟩ }

/-- `isGameOver` from `LiveGame`, as a function of the set index and the
bonus-round flag:
`!game.hasBonusRound && set >= SETS_PER_GAME || (game.hasBonusRound && set > SETS_PER_GAME)`. -/
def isGameOver (set : Int) (hasBonusRound : Bool) : Bool :=
  (!hasBonusRound && set ≥ (SETS_PER_GAME : Int))
    || (hasBonusRound && set > (SETS_PER_GAME : Int))

/-- The set indices the final summary view displays:
`Array.from({length: SETS_PER_GAME + (game.hasBonusRound ? 1 : 0)}, (_, i) => i)`. -/
def displayedSets (g : Game) : List Int :=
  (List.range (SETS_PER_GAME + if g.hasBonusRound then 1 else 0)).map
    (fun i => Int.ofNat i)

/-- One cell of the final-summary breakdown: the team's score within one
set (ledger entries with that set index crediting the team, plus the
team's manual adjustments scoped to that set). -/
def scoreForSet (g : Game) (t : String) (setId : Int) : Int :=
  ((g.results.filter (fun r => r.setId == setId)).map
      (fun r => if r.correctTeamIds.contains t then r.points else 0)).sum
    + ((g.manualAdjustments.filter
          (fun a => a.setId == setId && a.teamId == t)).map
        (fun a => a.points)).sum

/-! ## Concrete instances used by the example parts of the claims -/

/-- The three-team roster of the spec's end-to-end scenario. -/
def rosterABC : List Team := [⟨"A", "A"⟩, ⟨"B", "B"⟩, ⟨"C", "C"⟩]

/-- The spec §8 scenario: an archived Regular game of season s1 whose
ledger yields scores A:50, B:50, C:30 with no adjustments. -/
def gameG : Game :=
  { id := "G", seasonId := "s1", type := GameType.Regular,
    status := GameStatus.Archived, date := 0,
    participatingTeamIds := ["A", "B", "C"], hasBonusRound := false,
    countInRoyalty := none, stickyPoints := none,
    currentStage := ⟨4, 0, 0⟩,
    results := [⟨0, 0, 0, ["A", "B"], 50⟩, ⟨0, 0, 1, ["C"], 30⟩],
    manualAdjustments := [] }

/-- A game holding a ledger entry whose set index (10) is outside the
displayed range of a four-set game without bonus round. -/
def gameStray : Game :=
  { id := "X", seasonId := "s1", type := GameType.Regular,
    status := GameStatus.Live, date := 0,
    participatingTeamIds := ["A"], hasBonusRound := false,
    countInRoyalty := none, stickyPoints := none,
    currentStage := ⟨0, 0, 0⟩,
    results := [⟨10, 0, 0, ["A"], 5⟩],
    manualAdjustments := [] }

/-- A legacy archived Special game with no countInRoyalty field. -/
def gameLegacySpecial : Game := { gameG with type := GameType.Special }

/-- A ledger entry at the origin coordinate. -/
def resultQ0 : QuestionResult :=
  { setId := 0, categoryId := 0, questionIndex := 0,
    correctTeamIds := [], points := 1 }

/-! ## Lemmas about the generic JS helpers -/

theorem keys_any_iff {α : Type} (m : List (String × α)) (k : String) :
    (m.any (fun kv => kv.1 == k)) = true ↔ k ∈ m.map Prod.fst := by
  simp only [List.any_eq_true, List.mem_map, beq_iff_eq]

theorem objSet_of_not_mem {α : Type} {m : List (String × α)} {k : String}
    (v : α) (h : k ∉ m.map Prod.fst) : objSet m k v = m ++ [(k, v)] := by
  have hc : ¬((m.any (fun kv => kv.1 == k)) = true) := by
    intro hany
    exact h ((keys_any_iff m k).mp hany)
  unfold objSet
  rw [if_neg hc]

theorem objModify_shape {α : Type} (l : List String) (f : String → α)
    (k : String) (g : α → α) :
    objModify (l.map (fun t => (t, f t))) k g
      = l.map (fun t => (t, if t = k then g (f t) else f t)) := by
  unfold objModify
  rw [List.map_map]
  apply List.map_congr_left
  intro t _
  by_cases h : t = k
  · simp [h]
  · simp [h]

theorem objSet_zero_shape (l : List String) (k : String) :
    objSet (l.map (fun t => (t, (0 : Int)))) k 0
      = (if k ∈ l then l else l ++ [k]).map (fun t => (t, (0 : Int))) := by
  unfold objSet
  by_cases h : k ∈ l
  · rw [if_pos, if_pos h]
    · rw [List.map_map]
      apply List.map_congr_left
      intro t _
      by_cases ht : t = k <;> simp [ht]
    · rw [keys_any_iff]
      simpa using h
  · rw [if_neg, if_neg h, List.map_append]
    · rfl
    · rw [keys_any_iff]
      simpa using h

theorem jsGet_shape {α : Type} (l : List String) (f : String → α)
    (k : String) :
    jsGet (l.map (fun t => (t, f t))) k
      = if k ∈ l then some (f k) else none := by
  induction l with
  | nil => simp [jsGet]
  | cons t ts ih =>
    by_cases h : t = k
    · subst h
      simp [jsGet, List.find?]
    · have hkt : ¬k = t := fun hk => h hk.symm
      have hne : (t == k) = false := by simp [h]
      rw [show jsGet ((t :: ts).map (fun t => (t, f t))) k
            = jsGet (ts.map (fun t => (t, f t))) k by
          simp [jsGet, List.find?, hne]]
      rw [ih]
      simp [List.mem_cons, hkt]

theorem find?_map_keyfix {α : Type} (m : List (String × α))
    (g : String × α → String × α) (k : String)
    (hg : ∀ kv, (g kv).1 = kv.1) :
    (m.map g).find? (fun kv => kv.1 == k)
      = (m.find? (fun kv => kv.1 == k)).map g := by
  induction m with
  | nil => simp
  | cons kv rest ih =>
    simp only [List.map_cons, List.find?]
    rw [hg kv]
    by_cases h : kv.1 = k
    · simp [h]
    · have hb : (kv.1 == k) = false := by simp [h]
      simp only [hb]
      exact ih

theorem jsGet_objModify {α : Type} (m : List (String × α)) (k k' : String)
    (f : α → α) :
    jsGet (objModify m k f) k'
      = if k' = k then (jsGet m k').map f else jsGet m k' := by
  unfold objModify jsGet
  rw [find?_map_keyfix]
  · cases hf : m.find? (fun kv => kv.1 == k') with
    | none => simp
    | some kv =>
      have hk' : kv.1 = k' := by
        have := List.find?_some hf
        simpa using this
      by_cases h : k' = k
      · simp [hk', h]
      · simp [hk', h]
  · intro kv
    by_cases h : kv.1 = k <;> simp [h]

theorem objModify_keys {α : Type} (m : List (String × α)) (k : String)
    (f : α → α) : (objModify m k f).map Prod.fst = m.map Prod.fst := by
  unfold objModify
  rw [List.map_map]
  apply List.map_congr_left
  intro kv _
  by_cases h : kv.1 = k <;> simp [h]

theorem objModify_of_not_mem {α : Type} {m : List (String × α)}
    {k : String} (f : α → α) (h : k ∉ m.map Prod.fst) :
    objModify m k f = m := by
  unfold objModify
  have : ∀ kv ∈ m, (if kv.1 == k then (kv.1, f kv.2) else kv) = kv := by
    intro kv hmem
    have : kv.1 ≠ k := by
      intro he
      exact h (List.mem_map.mpr ⟨kv, hmem, he⟩)
    simp [this]
  rw [List.map_congr_left this]
  simp

theorem jsGet_mem {α : Type} {m : List (String × α)} {k : String} {v : α}
    (h : jsGet m k = some v) : (k, v) ∈ m := by
  unfold jsGet at h
  cases hf : m.find? (fun kv => kv.1 == k) with
  | none => rw [hf] at h; simp at h
  | some kv =>
    rw [hf] at h
    have hmem := List.mem_of_find?_eq_some hf
    have hk : kv.1 = k := by simpa using List.find?_some hf
    have hv : kv.2 = v := by simpa using h
    have : kv = (k, v) := by
      cases kv; simp_all
    rwa [this] at hmem

theorem jsGet_eq_none_iff {α : Type} (m : List (String × α)) (k : String) :
    jsGet m k = none ↔ k ∉ m.map Prod.fst := by
  unfold jsGet
  simp only [Option.map_eq_none', List.find?_eq_none, List.mem_map,
    beq_iff_eq]
  constructor
  · rintro h ⟨kv, hmem, hk⟩
    exact h kv hmem hk
  · intro h kv hmem hk
    exact h ⟨kv, hmem, hk⟩

theorem mem_jsDedupAcc {α : Type} [DecidableEq α] (l : List α) :
    ∀ (acc : List α) (x : α),
      x ∈ jsDedupAcc acc l ↔ x ∈ acc ∨ x ∈ l := by
  induction l with
  | nil => intro acc x; simp [jsDedupAcc]
  | cons y ys ih =>
    intro acc x
    simp only [jsDedupAcc]
    rw [ih]
    by_cases h : y ∈ acc
    · simp only [if_pos h, List.mem_cons]
      constructor
      · rintro (hx | hx)
        · exact Or.inl hx
        · exact Or.inr (Or.inr hx)
      · rintro (hx | hx | hx)
        · exact Or.inl hx
        · exact Or.inl (hx ▸ h)
        · exact Or.inr hx
    · simp only [if_neg h, List.mem_append, List.mem_singleton,
        List.mem_cons]
      tauto

theorem nodup_jsDedupAcc {α : Type} [DecidableEq α] (l : List α) :
    ∀ acc : List α, acc.Nodup → (jsDedupAcc acc l).Nodup := by
  induction l with
  | nil => intro acc h; exact h
  | cons y ys ih =>
    intro acc h
    simp only [jsDedupAcc]
    by_cases hy : y ∈ acc
    · rw [if_pos hy]; exact ih acc h
    · rw [if_neg hy]
      apply ih
      simp [List.nodup_append, h, hy]

theorem mem_jsDedup {α : Type} [DecidableEq α] (l : List α) (x : α) :
    x ∈ jsDedup l ↔ x ∈ l := by
  unfold jsDedup
  rw [mem_jsDedupAcc]
  simp

theorem nodup_jsDedup {α : Type} [DecidableEq α] (l : List α) :
    (jsDedup l).Nodup := nodup_jsDedupAcc l [] List.nodup_nil

/-! ## Closed form of `calculateGameScores` -/

theorem initScores_fold :
    ∀ (ts acc : List String),
      List.foldl (fun m t => objSet m t (0 : Int))
          (acc.map (fun t => (t, (0 : Int)))) ts
        = (jsDedupAcc acc ts).map (fun t => (t, (0 : Int))) := by
  intro ts
  induction ts with
  | nil => intro acc; rfl
  | cons t ts ih =>
    intro acc
    simp only [List.foldl_cons, jsDedupAcc]
    rw [objSet_zero_shape]
    by_cases h : t ∈ acc
    · rw [if_pos h]
      exact ih acc
    · rw [if_neg h]
      exact ih (acc ++ [t])

theorem foldAdd {β : Type} (key : β → String) (pts : β → Int) :
    ∀ (xs : List β) (l : List String) (f : String → Int),
      List.foldl (fun m x => objModify m (key x) (fun v => v + pts x))
          (l.map (fun t => (t, f t))) xs
        = l.map (fun t =>
            (t, f t + (xs.map (fun x => if key x = t then pts x else 0)).sum)) := by
  intro xs
  induction xs with
  | nil =>
    intro l f
    simp only [List.foldl_nil, List.map_nil, List.sum_nil]
    apply List.map_congr_left
    intro t _
    simp
  | cons x xs ih =>
    intro l f
    simp only [List.foldl_cons]
    rw [objModify_shape]
    rw [ih l (fun t => if t = key x then f t + pts x else f t)]
    apply List.map_congr_left
    intro t _
    simp only [List.map_cons, List.sum_cons]
    by_cases h : t = key x
    · simp only [if_pos h, if_pos h.symm]
      ring_nf
    · have h' : ¬key x = t := fun he => h he.symm
      simp only [if_neg h, if_neg h']
      ring_nf

theorem sum_if_eq_count (t : String) (p : Int) :
    ∀ xs : List String,
      (xs.map (fun x => if x = t then p else 0)).sum
        = (xs.count t : Int) * p := by
  intro xs
  induction xs with
  | nil => simp
  | cons x xs ih =>
    simp only [List.map_cons, List.sum_cons, List.count_cons, ih]
    by_cases h : x = t
    · have hb : (x == t) = true := by simp [h]
      simp only [if_pos h, hb, if_true]
      push_cast
      ring_nf
    · have hb : (x == t) = false := by simp [h]
      simp only [if_neg h, hb, Bool.false_eq_true, if_false]
      push_cast
      ring_nf

theorem sum_if_eq_filter {β : Type} (key : β → String) (pts : β → Int)
    (t : String) :
    ∀ xs : List β,
      (xs.map (fun x => if key x = t then pts x else 0)).sum
        = ((xs.filter (fun x => key x == t)).map pts).sum := by
  intro xs
  induction xs with
  | nil => simp
  | cons x xs ih =>
    simp only [List.map_cons, List.sum_cons, List.filter_cons]
    by_cases h : key x = t
    · have hb : (key x == t) = true := by simp [h]
      simp only [if_pos h, hb, if_true, List.map_cons, List.sum_cons, ih]
    · have hb : (key x == t) = false := by simp [h]
      simp only [if_neg h, hb, Bool.false_eq_true, if_false, ih]
      ring_nf

theorem resultsFold :
    ∀ (rs : List QuestionResult) (l : List String) (f : String → Int),
      List.foldl
          (fun m r => r.correctTeamIds.foldl
            (fun m' t => objModify m' t (fun v => v + r.points)) m)
          (l.map (fun t => (t, f t))) rs
        = l.map (fun t =>
            (t, f t + (rs.map
              (fun r => (r.correctTeamIds.count t : Int) * r.points)).sum)) := by
  intro rs
  induction rs with
  | nil =>
    intro l f
    simp only [List.foldl_nil, List.map_nil, List.sum_nil]
    apply List.map_congr_left
    intro t _
    simp
  | cons r rs ih =>
    intro l f
    simp only [List.foldl_cons]
    have heq : List.foldl
          (fun m' t => objModify m' t (fun v => v + r.points))
          (l.map (fun t => (t, f t))) r.correctTeamIds
        = l.map (fun t =>
            (t, f t + (r.correctTeamIds.map
              (fun x => if x = t then r.points else 0)).sum)) :=
      foldAdd (fun t : String => t) (fun _ => r.points) r.correctTeamIds l f
    rw [heq]
    rw [ih l (fun t =>
      f t + (r.correctTeamIds.map (fun x => if x = t then r.points else 0)).sum)]
    apply List.map_congr_left
    intro t _
    refine congrArg (fun z => (t, z)) ?_
    simp only [List.map_cons, List.sum_cons, sum_if_eq_count]
    rw [add_assoc]

theorem calculateGameScores_shape (g : Game) :
    calculateGameScores g
      = (jsDedup g.participatingTeamIds).map (fun t => (t, scoreFor g t)) := by
  unfold calculateGameScores
  dsimp only
  have h0 : List.foldl (fun m t => objSet m t (0 : Int)) []
        g.participatingTeamIds
      = (jsDedup g.participatingTeamIds).map (fun t => (t, (0 : Int))) :=
    initScores_fold g.participatingTeamIds []
  rw [h0]
  rw [resultsFold g.results (jsDedup g.participatingTeamIds) (fun _ => 0)]
  have hadj : List.foldl
        (fun m a => objModify m a.teamId (fun v => v + a.points))
        ((jsDedup g.participatingTeamIds).map (fun t =>
          (t, (fun t => (0 : Int) + (g.results.map
            (fun r => (r.correctTeamIds.count t : Int) * r.points)).sum) t)))
        g.manualAdjustments
      = (jsDedup g.participatingTeamIds).map (fun t =>
          (t, (0 : Int) + (g.results.map
              (fun r => (r.correctTeamIds.count t : Int) * r.points)).sum
            + (g.manualAdjustments.map
                (fun a => if a.teamId = t then a.points else 0)).sum)) :=
    foldAdd (fun a : ManualAdjustment => a.teamId)
      (fun a : ManualAdjustment => a.points) g.manualAdjustments
      (jsDedup g.participatingTeamIds) _
  rw [hadj]
  apply List.map_congr_left
  intro t _
  rw [sum_if_eq_filter]
  unfold scoreFor
  refine congrArg (fun z => (t, z)) ?_
  rw [zero_add]

/-- Membership form of the closed-form lookup: for a participating team,
`calculateGameScores` reports exactly `scoreFor`. -/
theorem jsGet_calculateGameScores (g : Game) (t : String) :
    jsGet (calculateGameScores g) t
      = if t ∈ g.participatingTeamIds then some (scoreFor g t) else none := by
  rw [calculateGameScores_shape, jsGet_shape]
  by_cases h : t ∈ g.participatingTeamIds
  · rw [if_pos ((mem_jsDedup _ t).mpr h), if_pos h]
  · rw [if_neg (fun hm => h ((mem_jsDedup _ t).mp hm)), if_neg h]

/-! ## Dense-rank lemmas -/

theorem uniqueScoresDesc_perm (values : List Int) :
    List.Perm (uniqueScoresDesc values) (jsDedup values) :=
  List.perm_insertionSort _ _

theorem uniqueScoresDesc_nodup (values : List Int) :
    (uniqueScoresDesc values).Nodup :=
  ((uniqueScoresDesc_perm values).nodup_iff).mpr (nodup_jsDedup values)

theorem mem_uniqueScoresDesc (values : List Int) (x : Int) :
    x ∈ uniqueScoresDesc values ↔ x ∈ values := by
  rw [(uniqueScoresDesc_perm values).mem_iff, mem_jsDedup]

theorem uniqueScoresDesc_sorted (values : List Int) :
    List.Sorted (fun a b => b ≤ a) (uniqueScoresDesc values) := by
  haveI : IsTotal Int (fun a b => b ≤ a) := ⟨fun a b => le_total b a⟩
  haveI : IsTrans Int (fun a b => b ≤ a) :=
    ⟨fun _ _ _ h1 h2 => le_trans h2 h1⟩
  exact List.sorted_insertionSort _ _

theorem uniqueScoresDesc_strict (values : List Int) :
    (uniqueScoresDesc values).Pairwise (fun a b => b < a) := by
  have h := List.Pairwise.and (uniqueScoresDesc_sorted values)
    (uniqueScoresDesc_nodup values)
  exact h.imp (fun hab => lt_of_le_of_ne hab.1 (Ne.symm hab.2))

theorem jsIndexOf_nonneg {l : List Int} {s : Int} (h : s ∈ l) :
    0 ≤ jsIndexOf l s := by
  induction l with
  | nil => simp at h
  | cons y ys ih =>
    simp only [jsIndexOf]
    by_cases hy : y = s
    · simp [hy]
    · have hb : (y == s) = false := by simp [hy]
      have hmem : s ∈ ys := by
        rcases List.mem_cons.mp h with h' | h'
        · exact absurd h'.symm hy
        · exact h'
      have hr := ih hmem
      simp only [hb, Bool.false_eq_true, if_false]
      by_cases hneg : jsIndexOf ys s = -1
      · omega
      · have hb2 : (jsIndexOf ys s == -1) = false := by
          simpa using hneg
        simp only [hb2, Bool.false_eq_true, if_false]
        omega

theorem jsIndexOf_strictDesc :
    ∀ (l : List Int), l.Pairwise (fun a b => b < a) →
      ∀ s ∈ l, jsIndexOf l s = ((l.filter (fun v => s < v)).length : Int) := by
  intro l
  induction l with
  | nil => intro _ s hs; simp at hs
  | cons y ys ih =>
    intro hp s hs
    have hlt : ∀ b ∈ ys, b < y := (List.pairwise_cons.mp hp).1
    have hp' : ys.Pairwise (fun a b => b < a) :=
      (List.pairwise_cons.mp hp).2
    by_cases hy : y = s
    · subst hy
      have hb : (y == y) = true := by simp
      have hfilter : (y :: ys).filter (fun v => y < v) = [] := by
        rw [List.filter_eq_nil_iff]
        intro a ha
        rcases List.mem_cons.mp ha with h' | h'
        · simp [h']
        · have := hlt a h'
          simp only [decide_eq_true_eq]
          omega
      simp [jsIndexOf, hfilter]
    · have hb : (y == s) = false := by simp [hy]
      have hmem : s ∈ ys := by
        rcases List.mem_cons.mp hs with h' | h'
        · exact absurd h'.symm hy
        · exact h'
      have hr := ih hp' s hmem
      have hnn := jsIndexOf_nonneg hmem
      have hb2 : (jsIndexOf ys s == -1) = false := by
        have : jsIndexOf ys s ≠ -1 := by omega
        simpa using this
      have hsy : s < y := hlt s hmem
      have hcons : (y :: ys).filter (fun v => s < v)
          = y :: ys.filter (fun v => s < v) := by
        rw [List.filter_cons]
        simp [hsy]
      have hb3 : ((((ys.filter (fun v => s < v)).length : Int)) == -1)
          = false := by
        simp only [beq_eq_false_iff_ne, ne_eq]
        omega
      simp only [jsIndexOf, hb, Bool.false_eq_true, if_false, hb2, hcons,
        List.length_cons, hr, hb3]
      push_cast
      ring_nf

theorem denseRank_eq_card (values : List Int) (s : Int) (h : s ∈ values) :
    denseRank values s
      = 1 + ((values.toFinset.filter (fun v => s < v)).card : Int) := by
  unfold denseRank
  have hmem : s ∈ uniqueScoresDesc values :=
    (mem_uniqueScoresDesc values s).mpr h
  rw [jsIndexOf_strictDesc _ (uniqueScoresDesc_strict values) s hmem]
  have hnodup : ((uniqueScoresDesc values).filter (fun v => s < v)).Nodup :=
    (uniqueScoresDesc_nodup values).filter _
  have hlen : ((uniqueScoresDesc values).filter (fun v => s < v)).length
      = (((uniqueScoresDesc values).filter (fun v => s < v)).toFinset).card :=
    (List.toFinset_card_of_nodup hnodup).symm
  have hfin : (((uniqueScoresDesc values).filter (fun v => s < v)).toFinset)
      = values.toFinset.filter (fun v => s < v) := by
    ext x
    simp only [List.mem_toFinset, List.mem_filter, Finset.mem_filter,
      mem_uniqueScoresDesc, decide_eq_true_eq]
  rw [hlen, hfin]
  ring_nf

/-! ## Additivity of per-set scores -/

theorem sumMapAdd {β : Type} (l : List β) (f g : β → Int) :
    (l.map (fun x => f x + g x)).sum = (l.map f).sum + (l.map g).sum := by
  induction l with
  | nil => simp
  | cons x xs ih =>
    simp only [List.map_cons, List.sum_cons, ih]
    ring_nf

theorem sum_if_single (I : List Int) (a c : Int) (hn : I.Nodup)
    (ha : a ∈ I) :
    (I.map (fun i => if a = i then c else 0)).sum = c := by
  induction I with
  | nil => simp at ha
  | cons i I ih =>
    simp only [List.map_cons, List.sum_cons]
    rcases List.mem_cons.mp ha with h | h
    · have hnot : a ∉ I := by
        rw [h]
        exact (List.nodup_cons.mp hn).1
      rw [if_pos h]
      have hz : (I.map (fun j => if a = j then c else 0)).sum = 0 := by
        have : ∀ j ∈ I, (if a = j then c else 0) = 0 := by
          intro j hj
          rw [if_neg]
          intro he
          exact hnot (he ▸ hj)
        rw [List.map_congr_left this]
        simp
      rw [hz]
      ring_nf
    · have hne : a ≠ i := by
        intro he
        exact (List.nodup_cons.mp hn).1 (he ▸ h)
      rw [if_neg hne, ih (List.nodup_cons.mp hn).2 h]
      ring_nf

theorem sum_partition {β : Type} (I : List Int) (hI : I.Nodup)
    (key : β → Int) (h : β → Int) :
    ∀ xs : List β, (∀ x ∈ xs, key x ∈ I) →
      (I.map (fun i => ((xs.filter (fun x => key x == i)).map h).sum)).sum
        = (xs.map h).sum := by
  intro xs
  induction xs with
  | nil =>
    intro _
    simp
  | cons x xs ih =>
    intro hx
    have hsplit : ∀ i ∈ I,
        (((x :: xs).filter (fun x' => key x' == i)).map h).sum
          = (if key x = i then h x else 0)
            + ((xs.filter (fun x' => key x' == i)).map h).sum := by
      intro i _
      rw [List.filter_cons]
      by_cases hk : key x = i
      · have hb : (key x == i) = true := by simp [hk]
        simp [hb, hk]
      · have hb : (key x == i) = false := by simp [hk]
        simp [hb, hk]
    rw [List.map_congr_left hsplit]
    rw [sumMapAdd I (fun i => if key x = i then h x else 0)
      (fun i => ((xs.filter (fun x' => key x' == i)).map h).sum)]
    rw [sum_if_single I (key x) (h x) hI (hx x (List.mem_cons_self x xs))]
    rw [ih (fun x' hx' => hx x' (List.mem_cons_of_mem x hx'))]
    simp

theorem displayedSets_nodup (g : Game) : (displayedSets g).Nodup := by
  unfold displayedSets
  have hinj : Function.Injective (fun i : Nat => Int.ofNat i) :=
    fun a b h => Int.ofNat.inj h
  exact (List.nodup_range _).map hinj

theorem count_mul_of_nodup (l : List String) (t : String) (p : Int)
    (h : l.Nodup) :
    (l.count t : Int) * p = if l.contains t then p else 0 := by
  by_cases hm : t ∈ l
  · rw [List.count_eq_one_of_mem h hm]
    have : l.contains t = true := List.elem_iff.mpr hm
    rw [this]
    simp
  · rw [List.count_eq_zero.mpr hm]
    have : l.contains t = false := by
      by_contra hc
      have : l.contains t = true := by
        cases hcv : l.contains t
        · exact absurd hcv hc
        · rfl
      exact hm (List.elem_iff.mp this)
    rw [this]
    simp

/-- Additivity: under the reachable-game side conditions (all ledger and
adjustment set indices lie among the displayed sets, and no ledger entry
credits the same team twice), the whole-game total is the sum of the
per-set scores. -/
theorem scoreFor_eq_sum_scoreForSet (g : Game) (t : String)
    (hres : ∀ r ∈ g.results, r.setId ∈ displayedSets g)
    (hresnd : ∀ r ∈ g.results, r.correctTeamIds.Nodup)
    (hadj : ∀ a ∈ g.manualAdjustments, a.setId ∈ displayedSets g) :
    scoreFor g t = ((displayedSets g).map (fun i => scoreForSet g t i)).sum := by
  have hsplit : ∀ i ∈ displayedSets g, scoreForSet g t i
      = ((g.results.filter (fun r => r.setId == i)).map
          (fun r => if r.correctTeamIds.contains t then r.points else 0)).sum
        + (((g.manualAdjustments.filter (fun a => a.teamId == t)).filter
              (fun a => a.setId == i)).map (fun a => a.points)).sum := by
    intro i _
    unfold scoreForSet
    rw [List.filter_filter]
  rw [List.map_congr_left hsplit]
  rw [sumMapAdd]
  rw [sum_partition (displayedSets g) (displayedSets_nodup g)
    (fun r : QuestionResult => r.setId)
    (fun r : QuestionResult =>
      if r.correctTeamIds.contains t then r.points else 0)
    g.results hres]
  rw [sum_partition (displayedSets g) (displayedSets_nodup g)
    (fun a : ManualAdjustment => a.setId)
    (fun a : ManualAdjustment => a.points)
    (g.manualAdjustments.filter (fun a => a.teamId == t))
    (fun a ha => hadj a (List.mem_of_mem_filter ha))]
  unfold scoreFor
  have hcount : ∀ r ∈ g.results,
      (r.correctTeamIds.count t : Int) * r.points
        = if r.correctTeamIds.contains t then r.points else 0 := by
    intro r hr
    exact count_mul_of_nodup _ t r.points (hresnd r hr)
  rw [List.map_congr_left hcount]

/-! ## Season-standings fold lemmas -/

theorem scores_keys (g : Game) :
    (calculateGameScores g).map Prod.fst = jsDedup g.participatingTeamIds := by
  rw [calculateGameScores_shape, List.map_map]
  exact List.map_id _

theorem scores_keys_nodup (g : Game) :
    ((calculateGameScores g).map Prod.fst).Nodup := by
  rw [scores_keys]
  exact nodup_jsDedup _

theorem fold_applyGame_get_ne (scores : List (String × Int)) :
    ∀ (entries : List (String × Int))
      (m : List (String × RoyaltyStandings)) (k : String),
      (∀ e ∈ entries, e.1 ≠ k) →
      jsGet (entries.foldl (applyGameToTeam scores) m) k = jsGet m k := by
  intro entries
  induction entries with
  | nil => intro m k _; rfl
  | cons e es ih =>
    intro m k h
    simp only [List.foldl_cons]
    rw [ih _ k (fun x hx => h x (List.mem_cons_of_mem e hx))]
    unfold applyGameToTeam
    rw [jsGet_objModify]
    rw [if_neg]
    intro he
    exact h e (List.mem_cons_self e es) he.symm

theorem fold_applyGame_get_once (scores : List (String × Int))
    (l₁ l₂ : List (String × Int)) (e : String × Int)
    (m : List (String × RoyaltyStandings))
    (h₁ : ∀ x ∈ l₁, x.1 ≠ e.1) (h₂ : ∀ x ∈ l₂, x.1 ≠ e.1) :
    jsGet ((l₁ ++ e :: l₂).foldl (applyGameToTeam scores) m) e.1
      = (jsGet m e.1).map (applyRankBonus scores e.2) := by
  rw [List.foldl_append, List.foldl_cons]
  rw [fold_applyGame_get_ne scores l₂ _ e.1 h₂]
  unfold applyGameToTeam
  rw [jsGet_objModify]
  rw [if_pos rfl]
  congr 1
  exact fold_applyGame_get_ne scores l₁ m e.1 h₁

theorem nodup_key_split {β : Type} (l₁ l₂ : List (String × β))
    (e : String × β)
    (h : ((l₁ ++ e :: l₂).map Prod.fst).Nodup) :
    (∀ x ∈ l₁, x.1 ≠ e.1) ∧ (∀ x ∈ l₂, x.1 ≠ e.1) := by
  rw [List.map_append, List.map_cons, List.nodup_append] at h
  obtain ⟨h1, h2, hdisj⟩ := h
  constructor
  · intro x hx he
    exact hdisj (List.mem_map.mpr ⟨x, hx, rfl⟩)
      (he ▸ List.mem_cons_self _ _)
  · intro x hx he
    exact (List.nodup_cons.mp h2).1
      (he ▸ List.mem_map.mpr ⟨x, hx, rfl⟩)

theorem processGame_get_some (m : List (String × RoyaltyStandings))
    (g : Game) (t : String) (s : Int)
    (h : jsGet (calculateGameScores g) t = some s) :
    jsGet (processGame m g) t
      = (jsGet m t).map (applyRankBonus (calculateGameScores g) s) := by
  unfold processGame
  dsimp only
  have hperm : List.Perm
      (List.insertionSort (fun p q : String × Int => q.2 ≤ p.2)
        (calculateGameScores g))
      (calculateGameScores g) :=
    List.perm_insertionSort _ _
  have hmem : (t, s) ∈ List.insertionSort
      (fun p q : String × Int => q.2 ≤ p.2) (calculateGameScores g) :=
    hperm.mem_iff.mpr (jsGet_mem h)
  have hnodup : ((List.insertionSort (fun p q : String × Int => q.2 ≤ p.2)
      (calculateGameScores g)).map Prod.fst).Nodup :=
    ((hperm.map Prod.fst).nodup_iff).mpr (scores_keys_nodup g)
  obtain ⟨l₁, l₂, hsplit⟩ := List.mem_iff_append.mp hmem
  rw [hsplit] at hnodup ⊢
  obtain ⟨h₁, h₂⟩ := nodup_key_split l₁ l₂ (t, s) hnodup
  exact fold_applyGame_get_once (calculateGameScores g) l₁ l₂ (t, s) m h₁ h₂

theorem processGame_get_none (m : List (String × RoyaltyStandings))
    (g : Game) (t : String)
    (h : jsGet (calculateGameScores g) t = none) :
    jsGet (processGame m g) t = jsGet m t := by
  unfold processGame
  apply fold_applyGame_get_ne
  intro e he hk
  have hmem : e ∈ calculateGameScores g :=
    (List.perm_insertionSort _ _).mem_iff.mp he
  have : t ∈ (calculateGameScores g).map Prod.fst :=
    List.mem_map.mpr ⟨e, hmem, hk⟩
  exact ((jsGet_eq_none_iff _ t).mp h) this

theorem applyRankBonus_explicit (scores : List (String × Int)) (s : Int)
    (st : RoyaltyStandings) :
    applyRankBonus scores s st
      = { teamId := st.teamId, teamName := st.teamName,
          points := st.points + 1
            + (if denseRank (scores.map (fun kv => kv.2)) s = 1 then 10
               else if denseRank (scores.map (fun kv => kv.2)) s = 2 then 5
               else if denseRank (scores.map (fun kv => kv.2)) s = 3 then 3
               else 0),
          gamesPlayed := st.gamesPlayed + 1,
          wins := st.wins
            + (if denseRank (scores.map (fun kv => kv.2)) s = 1 then 1
               else 0) } := by
  unfold applyRankBonus
  by_cases h1 : denseRank (scores.map (fun kv => kv.2)) s = 1
  · have hb : (denseRank (scores.map (fun kv => kv.2)) s == 1) = true := by
      simp [h1]
    simp [hb, h1]
  · have hb1 : (denseRank (scores.map (fun kv => kv.2)) s == 1) = false := by
      simp [h1]
    by_cases h2 : denseRank (scores.map (fun kv => kv.2)) s = 2
    · have hb : (denseRank (scores.map (fun kv => kv.2)) s == 2) = true := by
        simp [h2]
      simp [hb1, hb, h1, h2]
    · have hb2 : (denseRank (scores.map (fun kv => kv.2)) s == 2) = false := by
        simp [h2]
      by_cases h3 : denseRank (scores.map (fun kv => kv.2)) s = 3
      · have hb : (denseRank (scores.map (fun kv => kv.2)) s == 3) = true := by
          simp [h3]
        simp [hb1, hb2, hb, h1, h2, h3]
      · have hb3 : (denseRank (scores.map (fun kv => kv.2)) s == 3)
            = false := by simp [h3]
        simp [hb1, hb2, hb3, h1, h2, h3]

/-! ## Roster-initialization lemmas -/

theorem mem_objSet {α : Type} {m : List (String × α)} {k : String}
    {v : α} {kv : String × α} (h : kv ∈ objSet m k v) :
    kv = (k, v) ∨ kv ∈ m := by
  unfold objSet at h
  by_cases hc : (m.any (fun kv => kv.1 == k)) = true
  · rw [if_pos hc] at h
    obtain ⟨kv₀, hkv₀, heq⟩ := List.mem_map.mp h
    by_cases hk : kv₀.1 = k
    · left
      rw [← heq]
      simp [hk]
    · right
      have hb : (kv₀.1 == k) = false := by simpa using hk
      rw [← heq, hb]
      simpa using hkv₀
  · rw [if_neg hc] at h
    rcases List.mem_append.mp h with h' | h'
    · exact Or.inr h'
    · left
      simpa using h'

theorem initStandings_fold :
    ∀ (teams : List Team) (m : List (String × RoyaltyStandings)),
      (∀ tm ∈ teams, tm.id ∉ m.map Prod.fst) →
      (teams.map (fun tm => tm.id)).Nodup →
      teams.foldl (fun m' team => objSet m' team.id (zeroStandings team)) m
        = m ++ teams.map (fun tm => (tm.id, zeroStandings tm)) := by
  intro teams
  induction teams with
  | nil => intro m _ _; simp
  | cons tm teams ih =>
    intro m hm hnd
    rw [List.map_cons] at hnd
    have hnd' := List.nodup_cons.mp hnd
    simp only [List.foldl_cons]
    rw [objSet_of_not_mem _ (hm tm (List.mem_cons_self tm teams))]
    have hdisj : ∀ tm' ∈ teams,
        tm'.id ∉ (m ++ [(tm.id, zeroStandings tm)]).map Prod.fst := by
      intro tm' htm'
      rw [List.map_append]
      intro hmem
      rcases List.mem_append.mp hmem with h' | h'
      · exact hm tm' (List.mem_cons_of_mem tm htm') h'
      · have heq : tm'.id = tm.id := by simpa using h'
        apply hnd'.1
        rw [← heq]
        exact List.mem_map.mpr ⟨tm', htm', rfl⟩
    rw [ih _ hdisj hnd'.2]
    simp

theorem initStandings_shape (teams : List Team)
    (h : (teams.map (fun tm => tm.id)).Nodup) :
    initStandings teams = teams.map (fun tm => (tm.id, zeroStandings tm)) := by
  unfold initStandings
  rw [initStandings_fold teams [] (by simp) h]
  simp

theorem jsGet_keymap {α β : Type} (key : β → String) (val : β → α) :
    ∀ (l : List β) (b : β), b ∈ l → (l.map key).Nodup →
      jsGet (l.map (fun x => (key x, val x))) (key b) = some (val b) := by
  intro l
  induction l with
  | nil => intro b hb; simp at hb
  | cons x xs ih =>
    intro b hb hnd
    rw [List.map_cons] at hnd
    have hnd' := List.nodup_cons.mp hnd
    by_cases hx : key x = key b
    · have hbx : b = x ∨ b ∈ xs := List.mem_cons.mp hb
      have hbeq : b = x := by
        rcases hbx with h' | h'
        · exact h'
        · exfalso
          apply hnd'.1
          rw [hx]
          exact List.mem_map.mpr ⟨b, h', rfl⟩
      subst hbeq
      simp [jsGet, List.find?]
    · have hb' : b ∈ xs := by
        rcases List.mem_cons.mp hb with h' | h'
        · exact absurd (congrArg key h') (fun he => hx he.symm)
        · exact h'
      have hbx : (key x == key b) = false := by simpa using hx
      rw [show jsGet ((x :: xs).map (fun x => (key x, val x))) (key b)
            = jsGet (xs.map (fun x => (key x, val x))) (key b) by
          simp [jsGet, List.find?, hbx]]
      exact ih b hb' hnd'.2

/-! ## Key and teamId preservation through the standings folds -/

theorem fold_applyGame_keys (scores : List (String × Int))
    (entries : List (String × Int)) :
    ∀ m : List (String × RoyaltyStandings),
      (entries.foldl (applyGameToTeam scores) m).map Prod.fst
        = m.map Prod.fst := by
  induction entries with
  | nil => intro m; rfl
  | cons e es ih =>
    intro m
    simp only [List.foldl_cons]
    rw [ih]
    unfold applyGameToTeam
    exact objModify_keys m e.1 _

theorem processGame_keys (m : List (String × RoyaltyStandings)) (g : Game) :
    (processGame m g).map Prod.fst = m.map Prod.fst := by
  unfold processGame
  dsimp only
  exact fold_applyGame_keys _ _ m

theorem foldGames_keys (games : List Game) :
    ∀ m : List (String × RoyaltyStandings),
      ((games.foldl processGame m).map Prod.fst) = m.map Prod.fst := by
  induction games with
  | nil => intro m; rfl
  | cons g gs ih =>
    intro m
    simp only [List.foldl_cons]
    rw [ih, processGame_keys]

theorem applyRankBonus_teamId (scores : List (String × Int)) (s : Int)
    (st : RoyaltyStandings) :
    (applyRankBonus scores s st).teamId = st.teamId := by
  rw [applyRankBonus_explicit]

theorem mem_objModify {α : Type} {m : List (String × α)} {k : String}
    {f : α → α} {kv : String × α} (h : kv ∈ objModify m k f) :
    ∃ kv₀ ∈ m, kv.1 = kv₀.1 ∧ (kv.2 = kv₀.2 ∨ kv.2 = f kv₀.2) := by
  unfold objModify at h
  obtain ⟨kv₀, hkv₀, heq⟩ := List.mem_map.mp h
  by_cases hk : kv₀.1 = k
  · refine ⟨kv₀, hkv₀, ?_, ?_⟩
    · rw [← heq]; simp [hk]
    · right; rw [← heq]; simp [hk]
  · refine ⟨kv₀, hkv₀, ?_, ?_⟩
    · rw [← heq]; simp [hk]
    · left; rw [← heq]; simp [hk]

theorem teamId_inv_applyGame (scores : List (String × Int))
    (entries : List (String × Int)) :
    ∀ m : List (String × RoyaltyStandings),
      (∀ kv ∈ m, kv.2.teamId = kv.1) →
      ∀ kv ∈ entries.foldl (applyGameToTeam scores) m,
        kv.2.teamId = kv.1 := by
  induction entries with
  | nil => intro m hm; exact hm
  | cons e es ih =>
    intro m hm
    simp only [List.foldl_cons]
    apply ih
    intro kv hkv
    obtain ⟨kv₀, hkv₀, hfst, hsnd⟩ := mem_objModify hkv
    rcases hsnd with h' | h'
    · rw [h', hfst]
      exact hm kv₀ hkv₀
    · rw [h', hfst, applyRankBonus_teamId]
      exact hm kv₀ hkv₀

theorem teamId_inv_foldGames (games : List Game) :
    ∀ m : List (String × RoyaltyStandings),
      (∀ kv ∈ m, kv.2.teamId = kv.1) →
      ∀ kv ∈ games.foldl processGame m, kv.2.teamId = kv.1 := by
  induction games with
  | nil => intro m hm; exact hm
  | cons g gs ih =>
    intro m hm
    simp only [List.foldl_cons]
    apply ih
    unfold processGame
    dsimp only
    exact teamId_inv_applyGame _ _ m hm

theorem foldGames_get (games : List Game) :
    ∀ (m : List (String × RoyaltyStandings)) (t : String),
      (∀ g ∈ games, jsGet (calculateGameScores g) t = none) →
      jsGet (games.foldl processGame m) t = jsGet m t := by
  induction games with
  | nil => intro m t _; rfl
  | cons g gs ih =>
    intro m t h
    simp only [List.foldl_cons]
    rw [ih _ t (fun g' hg' => h g' (List.mem_cons_of_mem g hg'))]
    exact processGame_get_none m g t (h g (List.mem_cons_self g gs))

/-! ## Ledger-upsert lemmas -/

theorem sameKey_iff (a b : QuestionResult) :
    sameKey a b = true ↔ qKey a = qKey b := by
  unfold sameKey qKey
  simp [Prod.ext_iff, Bool.and_eq_true, beq_iff_eq, and_assoc]

theorem mem_upsert {l : List QuestionResult} {r x : QuestionResult}
    (h : x ∈ upsert l r) : x = r ∨ x ∈ l := by
  induction l with
  | nil =>
    simp only [upsert, List.mem_singleton] at h
    exact Or.inl h
  | cons y ys ih =>
    simp only [upsert] at h
    by_cases hk : sameKey y r = true
    · rw [if_pos hk] at h
      rcases List.mem_cons.mp h with h' | h'
      · exact Or.inl h'
      · exact Or.inr (List.mem_cons_of_mem y h')
    · rw [if_neg hk] at h
      rcases List.mem_cons.mp h with h' | h'
      · exact Or.inr (h' ▸ List.mem_cons_self y ys)
      · rcases ih h' with h'' | h''
        · exact Or.inl h''
        · exact Or.inr (List.mem_cons_of_mem y h'')

theorem upsert_keys_nodup {l : List QuestionResult} (r : QuestionResult)
    (h : (l.map qKey).Nodup) : ((upsert l r).map qKey).Nodup := by
  induction l with
  | nil => simp [upsert]
  | cons y ys ih =>
    rw [List.map_cons] at h
    have h' := List.nodup_cons.mp h
    by_cases hk : sameKey y r = true
    · have hqk : qKey y = qKey r := (sameKey_iff y r).mp hk
      simp only [upsert, if_pos hk, List.map_cons, List.nodup_cons]
      exact ⟨hqk ▸ h'.1, h'.2⟩
    · simp only [upsert, if_neg hk, List.map_cons, List.nodup_cons]
      constructor
      · intro hmem
        obtain ⟨x, hx, hxq⟩ := List.mem_map.mp hmem
        rcases mem_upsert hx with h'' | h''
        · apply hk
          rw [sameKey_iff]
          rw [h''] at hxq
          exact hxq.symm
        · exact h'.1 (hxq ▸ List.mem_map.mpr ⟨x, h'', rfl⟩)
      · exact ih h'.2

theorem upsert_append {l : List QuestionResult} (r : QuestionResult)
    (h : ∀ x ∈ l, sameKey x r = false) : upsert l r = l ++ [r] := by
  induction l with
  | nil => rfl
  | cons y ys ih =>
    have hy : sameKey y r = false := h y (List.mem_cons_self y ys)
    simp only [upsert, hy, Bool.false_eq_true, if_false, List.cons_append]
    rw [ih (fun x hx => h x (List.mem_cons_of_mem y hx))]

theorem upsert_replace {l : List QuestionResult} (r : QuestionResult)
    (hnd : (l.map qKey).Nodup) (x₀ : QuestionResult) (hx : x₀ ∈ l)
    (hk : sameKey x₀ r = true) :
    upsert l r = l.map (fun x => if sameKey x r then r else x) := by
  induction l with
  | nil => simp at hx
  | cons y ys ih =>
    rw [List.map_cons] at hnd
    have hnd' := List.nodup_cons.mp hnd
    by_cases hky : sameKey y r = true
    · simp only [upsert, if_pos hky, List.map_cons, hky, if_true]
      have hrest : ∀ x ∈ ys, ¬(sameKey x r = true) := by
        intro x hxmem hxk
        apply hnd'.1
        have h1 : qKey x = qKey r := (sameKey_iff x r).mp hxk
        have h2 : qKey y = qKey r := (sameKey_iff y r).mp hky
        rw [← h2] at h1
        exact h1 ▸ List.mem_map.mpr ⟨x, hxmem, rfl⟩
      have : ∀ x ∈ ys, (if sameKey x r then r else x) = x := by
        intro x hxmem
        rw [if_neg (hrest x hxmem)]
      rw [List.map_congr_left this]
      simp
    · have hx' : x₀ ∈ ys := by
        rcases List.mem_cons.mp hx with h' | h'
        · exact absurd (h' ▸ hk) hky
        · exact h'
      simp only [upsert, if_neg hky, List.map_cons, hky, Bool.false_eq_true,
        if_false]
      rw [ih hnd'.2 hx']

theorem foldl_upsert_nodup :
    ∀ (rs : List QuestionResult) (l : List QuestionResult),
      (l.map qKey).Nodup → (((rs.foldl upsert l)).map qKey).Nodup := by
  intro rs
  induction rs with
  | nil => intro l h; exact h
  | cons r rs ih =>
    intro l h
    simp only [List.foldl_cons]
    exact ih (upsert l r) (upsert_keys_nodup r h)

/-! ## Claim theorems -/

/-- C7: `isGameOver` holds exactly when either the bonus round is disabled
and the set index is at least `SETS_PER_GAME` (4), or the bonus round is
enabled and the set index exceeds `SETS_PER_GAME`; in particular without a
bonus round stage set 4 is game-over, and with a bonus round set 4 is not
game-over but set 5 is. -/
theorem claim_C7_game_over :
    (∀ (s : Int) (b : Bool),
        isGameOver s b = true
          ↔ ((b = false ∧ s ≥ (SETS_PER_GAME : Int))
             ∨ (b = true ∧ s > (SETS_PER_GAME : Int))))
    ∧ isGameOver 4 false = true
    ∧ isGameOver 4 true = false
    ∧ isGameOver 5 true = true := by
  refine ⟨?_, by decide, by decide, by decide⟩
  intro s b
  cases b <;> simp [isGameOver]

/-- C8: a game is season-eligible exactly when its seasonId matches, its
status is Archived, and its `countInRoyalty` flag when present — otherwise
(legacy record) exactly when its type is Regular; a legacy archived
Regular game counts, a legacy archived Special game does not. -/
theorem claim_C8_eligibility :
    (∀ (sid : String) (g : Game),
        seasonEligible sid g = true
          ↔ (g.seasonId = sid ∧ g.status = GameStatus.Archived
             ∧ g.countInRoyalty.getD (g.type == GameType.Regular) = true))
    ∧ seasonEligible "s1" gameG = true
    ∧ seasonEligible "s1" gameLegacySpecial = false := by
  refine ⟨?_, by decide, by decide⟩
  intro sid g
  unfold seasonEligible
  cases hcr : g.countInRoyalty with
  | none => simp [hcr, and_assoc]
  | some b => simp [hcr, and_assoc]

/-- C5 counterexample: the code resolves an existing sticky-points value
of 0 to the default 1 — the JS expression `game.stickyPoints || 1` treats
0 as falsy — whereas the claimed resolution order would use the existing
value 0. -/
theorem claim_C5_sticky_zero_counterexample :
    currentPoints none (some 0) ≠ specCurrentPoints none (some 0) := by
  decide

/-- C5 (amended): the point value resolves to the explicit operator value
when present, else to the sticky value when present and nonzero, else to
the constant 1 (a sticky value of 0 also falls back to 1); and recording a
result always overwrites the sticky value with exactly the point value
just used. -/
theorem claim_C5_point_resolution :
    (∀ (m : Int) (sp : Option Int), currentPoints (some m) sp = m)
    ∧ (∀ s : Int, s ≠ 0 → currentPoints none (some s) = s)
    ∧ currentPoints none none = 1
    ∧ currentPoints none (some 0) = 1
    ∧ (∀ (g : Game) (mp : Option Int) (sel : List String),
        (handleNext g mp sel).stickyPoints
          = some (currentPoints mp g.stickyPoints)) := by
  refine ⟨fun m sp => rfl, ?_, rfl, by decide, fun g mp sel => rfl⟩
  intro s hs
  have hb : (s == 0) = false := by simpa using hs
  simp [currentPoints, hb]

/-- C5 witness: a nonzero sticky value of 7 is used as the default. -/
theorem claim_C5_point_resolution_witness :
    (7 : Int) ≠ 0 ∧ currentPoints none (some 7) = 7 :=
  ⟨by decide, claim_C5_point_resolution.2.1 7 (by decide)⟩

/-- C4: after any sequence of recordings starting from the empty ledger
the (set, category, question) keys are pairwise distinct; upserting an
absent coordinate appends at the end; upserting a present coordinate
replaces the matching entry in place; and `handleNext` performs exactly
this upsert at the current stage coordinate. -/
theorem claim_C4_ledger_upsert :
    (∀ rs : List QuestionResult, ((rs.foldl upsert []).map qKey).Nodup)
    ∧ (∀ (l : List QuestionResult) (r : QuestionResult),
        (∀ x ∈ l, sameKey x r = false) → upsert l r = l ++ [r])
    ∧ (∀ (l : List QuestionResult) (r x₀ : QuestionResult),
        (l.map qKey).Nodup → x₀ ∈ l → sameKey x₀ r = true →
        upsert l r = l.map (fun x => if sameKey x r then r else x))
    ∧ (∀ (g : Game) (mp : Option Int) (sel : List String),
        (handleNext g mp sel).results
          = upsert g.results
              { setId := g.currentStage.set,
                categoryId := g.currentStage.category,
                questionIndex := g.currentStage.question,
                correctTeamIds := sel,
                points := currentPoints mp g.stickyPoints }) := by
  refine ⟨?_, ?_, ?_, fun g mp sel => rfl⟩
  · intro rs
    exact foldl_upsert_nodup rs [] (by simp)
  · intro l r h
    exact upsert_append r h
  · intro l r x₀ hnd hx hk
    exact upsert_replace r hnd x₀ hx hk

/-- C4 witness: recording a fresh coordinate on the empty ledger appends
it. -/
theorem claim_C4_ledger_upsert_witness :
    (∀ x ∈ ([] : List QuestionResult), sameKey x resultQ0 = false)
    ∧ upsert [] resultQ0 = [] ++ [resultQ0] :=
  ⟨by simp, claim_C4_ledger_upsert.2.1 [] resultQ0 (by simp)⟩

/-- C1: the computed rank — the shared `uniqueScores.indexOf(score) + 1`
expression of `calculateSeasonStandings` and `getTeamHistory`, embedded as
`denseRank` — equals 1 plus the number of distinct score values strictly
greater than the team's score, for every score present in the mapping; in
particular every `getTeamHistory` entry carries that rank, and on the
values of the mapping \x7bA:10, B:10, C:5, D:5, E:1\x7d the ranks are
10 ↦ 1, 5 ↦ 2, 1 ↦ 3. -/
theorem claim_C1_dense_rank :
    (∀ (values : List Int) (s : Int), s ∈ values →
        denseRank values s
          = 1 + ((values.toFinset.filter (fun v => s < v)).card : Int))
    ∧ (∀ (tid : String) (games : List Game) (e : HistoryEntry),
        e ∈ getTeamHistory tid games →
        e.rank = 1 + ((((calculateGameScores e.game).map
            (fun kv => kv.2)).toFinset.filter
              (fun v => e.score < v)).card : Int))
    ∧ (denseRank [10, 10, 5, 5, 1] 10 = 1
        ∧ denseRank [10, 10, 5, 5, 1] 5 = 2
        ∧ denseRank [10, 10, 5, 5, 1] 1 = 3) := by
  refine ⟨fun values s h => denseRank_eq_card values s h, ?_,
    by decide, by decide, by decide⟩
  intro tid games e he
  unfold getTeamHistory at he
  dsimp only at he
  have he' := (List.perm_insertionSort
    (fun a b : HistoryEntry => b.game.date ≤ a.game.date) _).mem_iff.mp he
  obtain ⟨g, hg, hge⟩ := List.mem_map.mp he'
  obtain ⟨hgmem, hcond⟩ := List.mem_filter.mp hg
  rw [Bool.and_eq_true] at hcond
  have htid : tid ∈ g.participatingTeamIds := List.elem_iff.mp hcond.2
  have hjs : jsGet (calculateGameScores g) tid = some (scoreFor g tid) := by
    rw [jsGet_calculateGameScores, if_pos htid]
  have hsc : ((jsGet (calculateGameScores g) tid).getD 0)
      = scoreFor g tid := by
    rw [hjs]
    rfl
  have hmemv : scoreFor g tid
      ∈ (calculateGameScores g).map (fun kv => kv.2) :=
    List.mem_map.mpr ⟨(tid, scoreFor g tid), jsGet_mem hjs, rfl⟩
  rw [← hge]
  dsimp only
  rw [hsc]
  exact denseRank_eq_card _ _ hmemv

/-- C1 witness: a concrete score present in a mapping receives the
claimed dense rank. -/
theorem claim_C1_dense_rank_witness :
    (5 : Int) ∈ [(5 : Int), 9]
    ∧ denseRank [5, 9] 5
        = 1 + ((([(5 : Int), 9].toFinset.filter
            (fun v => (5 : Int) < v)).card : Int)) :=
  ⟨by decide, claim_C1_dense_rank.1 [5, 9] 5 (by decide)⟩

/-- C2 counterexample: for a Game holding a ledger entry whose setId (10)
lies outside the displayed set range, the whole-game total (5) differs
from the sum of the displayed per-set scores (0), so the claim as stated
over any Game fails. -/
theorem claim_C2_additivity_counterexample :
    "A" ∈ gameStray.participatingTeamIds
    ∧ jsGet (calculateGameScores gameStray) "A" = some 5
    ∧ ((displayedSets gameStray).map
        (fun i => scoreForSet gameStray "A" i)).sum = 0
    ∧ jsGet (calculateGameScores gameStray) "A"
        ≠ some (((displayedSets gameStray).map
            (fun i => scoreForSet gameStray "A" i)).sum) := by
  refine ⟨by decide, by decide, by decide, by decide⟩

/-- C2 (amended): provided every ledger entry's and manual adjustment's
set index lies among the sets the game displays and no ledger entry
credits the same team twice, each participating team's whole-game total
from `calculateGameScores` equals the sum of its per-set breakdown
scores. -/
theorem claim_C2_additivity (g : Game) (t : String)
    (ht : t ∈ g.participatingTeamIds)
    (hres : ∀ r ∈ g.results, r.setId ∈ displayedSets g)
    (hresnd : ∀ r ∈ g.results, r.correctTeamIds.Nodup)
    (hadj : ∀ a ∈ g.manualAdjustments, a.setId ∈ displayedSets g) :
    jsGet (calculateGameScores g) t
      = some (((displayedSets g).map (fun i => scoreForSet g t i)).sum) := by
  rw [jsGet_calculateGameScores, if_pos ht]
  rw [scoreFor_eq_sum_scoreForSet g t hres hresnd hadj]

/-- C2 witness: additivity holds on the in-range scenario game. -/
theorem claim_C2_additivity_witness :
    "A" ∈ gameG.participatingTeamIds
    ∧ (∀ r ∈ gameG.results, r.setId ∈ displayedSets gameG)
    ∧ (∀ r ∈ gameG.results, r.correctTeamIds.Nodup)
    ∧ (∀ a ∈ gameG.manualAdjustments, a.setId ∈ displayedSets gameG)
    ∧ jsGet (calculateGameScores gameG) "A"
        = some (((displayedSets gameG).map
            (fun i => scoreForSet gameG "A" i)).sum) :=
  ⟨by decide, by decide, by decide, by decide,
    claim_C2_additivity gameG "A" (by decide) (by decide) (by decide)
      (by decide)⟩

/-- C3: for each game processed into the standings, a team present in the
game's score mapping and in the standings map receives exactly
gamesPlayed+1, points+1 plus the dense-rank bonus (+10 with a win at rank
1, +5 at rank 2, +3 at rank 3, +0 at rank 4 or worse); a team absent from
the mapping is untouched; and the scenario game \x7bA:50, B:50, C:30\x7d
yields A and B 11 points and a win each, C 6 points and no win. -/
theorem claim_C3_per_game_delta :
    (∀ (m : List (String × RoyaltyStandings)) (g : Game) (t : String)
        (s : Int) (st : RoyaltyStandings),
        jsGet (calculateGameScores g) t = some s →
        jsGet m t = some st →
        jsGet (processGame m g) t = some
          { teamId := st.teamId, teamName := st.teamName,
            points := st.points + 1
              + (if denseRank ((calculateGameScores g).map
                    (fun kv => kv.2)) s = 1 then 10
                 else if denseRank ((calculateGameScores g).map
                    (fun kv => kv.2)) s = 2 then 5
                 else if denseRank ((calculateGameScores g).map
                    (fun kv => kv.2)) s = 3 then 3
                 else 0),
            gamesPlayed := st.gamesPlayed + 1,
            wins := st.wins
              + (if denseRank ((calculateGameScores g).map
                    (fun kv => kv.2)) s = 1 then 1 else 0) })
    ∧ (∀ (m : List (String × RoyaltyStandings)) (g : Game) (t : String),
        jsGet (calculateGameScores g) t = none →
        jsGet (processGame m g) t = jsGet m t)
    ∧ calculateSeasonStandings "s1" [gameG] rosterABC
        = [{ teamId := "A", teamName := "A", points := 11,
             gamesPlayed := 1, wins := 1 },
           { teamId := "B", teamName := "B", points := 11,
             gamesPlayed := 1, wins := 1 },
           { teamId := "C", teamName := "C", points := 6,
             gamesPlayed := 1, wins := 0 }] := by
  refine ⟨?_, ?_, by decide⟩
  · intro m g t s st h1 h2
    rw [processGame_get_some m g t s h1, h2, Option.map_some']
    rw [applyRankBonus_explicit]
  · intro m g t h
    exact processGame_get_none m g t h

/-- C3 witness: the scenario game applied to the freshly initialized
roster gives team A 11 points, 1 game played and 1 win. -/
theorem claim_C3_per_game_delta_witness :
    jsGet (calculateGameScores gameG) "A" = some 50
    ∧ jsGet (initStandings rosterABC) "A" = some (zeroStandings ⟨"A", "A"⟩)
    ∧ jsGet (processGame (initStandings rosterABC) gameG) "A"
        = some { teamId := "A", teamName := "A", points := 11,
                 gamesPlayed := 1, wins := 1 } := by
  refine ⟨by decide, by decide, ?_⟩
  have h := claim_C3_per_game_delta.1 (initStandings rosterABC) gameG "A"
    50 (zeroStandings ⟨"A", "A"⟩) (by decide) (by decide)
  rw [h]
  decide

/-- C6: advancing increments the question; on reaching
`QUESTIONS_PER_CATEGORY` (8) it resets to 0 and the category increments;
on reaching `CATEGORIES_PER_SET` (3) the category resets to 0 and the set
increments; the boundary signal is true exactly when the new set index
exceeds the old one; and (0,2,7) advances to (1,0,0) with the signal
true. -/
theorem claim_C6_advance (st : Stage)
    (hq : st.question < (QUESTIONS_PER_CATEGORY : Int))
    (hc : st.category < (CATEGORIES_PER_SET : Int)) :
    (advanceStage st).1
      = (if st.question + 1 = (QUESTIONS_PER_CATEGORY : Int) then
           (if st.category + 1 = (CATEGORIES_PER_SET : Int) then
              (⟨st.set + 1, 0, 0⟩ : Stage)
            else ⟨st.set, st.category + 1, 0⟩)
         else ⟨st.set, st.category, st.question + 1⟩)
    ∧ ((advanceStage st).2 = true ↔ (advanceStage st).1.set > st.set)
    ∧ advanceStage ⟨0, 2, 7⟩ = (⟨1, 0, 0⟩, true) := by
  have h8 : (QUESTIONS_PER_CATEGORY : Int) = 8 := by
    norm_num [QUESTIONS_PER_CATEGORY]
  have h3 : (CATEGORIES_PER_SET : Int) = 3 := by
    norm_num [CATEGORIES_PER_SET]
  refine ⟨?_, ?_, by decide⟩
  · unfold advanceStage
    dsimp only
    by_cases hge : st.question + 1 ≥ (QUESTIONS_PER_CATEGORY : Int)
    · have he : st.question + 1 = (QUESTIONS_PER_CATEGORY : Int) := by omega
      rw [if_pos hge, if_pos he]
      by_cases hcge : st.category + 1 ≥ (CATEGORIES_PER_SET : Int)
      · have hce : st.category + 1 = (CATEGORIES_PER_SET : Int) := by omega
        rw [if_pos hcge, if_pos hce]
      · have hcne : ¬(st.category + 1 = (CATEGORIES_PER_SET : Int)) := by
          omega
        rw [if_neg hcge, if_neg hcne]
    · have hne : ¬(st.question + 1 = (QUESTIONS_PER_CATEGORY : Int)) := by
        omega
      rw [if_neg hge, if_neg hne]
  · unfold advanceStage
    dsimp only
    exact decide_eq_true_iff

/-- C6 witness: the wraparound instance (0,2,7) advances to (1,0,0) with
the boundary signal set. -/
theorem claim_C6_advance_witness :
    (7 : Int) < (QUESTIONS_PER_CATEGORY : Int)
    ∧ (2 : Int) < (CATEGORIES_PER_SET : Int)
    ∧ advanceStage ⟨0, 2, 7⟩ = (⟨1, 0, 0⟩, true) :=
  ⟨by decide, by decide,
    (claim_C6_advance ⟨0, 2, 7⟩ (by decide) (by decide)).2.2⟩

/-- C9: retreating decrements the question with underflow borrowing
(question 0 borrows from the category giving question 7; category 0
borrows from the set giving category 2), and retreating from (0,0,0) — the
only valid stage whose resulting set index would be negative — leaves the
whole Game unchanged instead of faulting. -/
theorem claim_C9_retreat (g : Game)
    (hs : 0 ≤ g.currentStage.set) (hc : 0 ≤ g.currentStage.category)
    (hq : 0 ≤ g.currentStage.question) :
    (g.currentStage = ⟨0, 0, 0⟩ → handlePrevious g = g)
    ∧ (0 < g.currentStage.question →
        handlePrevious g
          = { g with currentStage := ⟨g.currentStage.set,
              g.currentStage.category, g.currentStage.question - 1⟩ })
    ∧ (g.currentStage.question = 0 → 0 < g.currentStage.category →
        handlePrevious g
          = { g with currentStage := ⟨g.currentStage.set,
              g.currentStage.category - 1,
              (QUESTIONS_PER_CATEGORY : Int) - 1⟩ })
    ∧ (g.currentStage.question = 0 → g.currentStage.category = 0 →
        0 < g.currentStage.set →
        handlePrevious g
          = { g with currentStage := ⟨g.currentStage.set - 1,
              (CATEGORIES_PER_SET : Int) - 1,
              (QUESTIONS_PER_CATEGORY : Int) - 1⟩ }) := by
  refine ⟨?_, ?_, ?_, ?_⟩
  · intro h000
    have hq0 : g.currentStage.question = 0 := by rw [h000]
    have hc0 : g.currentStage.category = 0 := by rw [h000]
    have hs0 : g.currentStage.set = 0 := by rw [h000]
    unfold handlePrevious
    dsimp only
    rw [if_pos (show g.currentStage.question - 1 < 0 by omega)]
    rw [if_pos (show g.currentStage.category - 1 < 0 by omega)]
    dsimp only
    rw [if_pos (show g.currentStage.set - 1 < 0 by omega)]
  · intro hqpos
    unfold handlePrevious
    dsimp only
    rw [if_neg (show ¬(g.currentStage.question - 1 < 0) by omega)]
    dsimp only
    rw [if_neg (show ¬(g.currentStage.set < 0) by omega)]
  · intro hq0 hcpos
    unfold handlePrevious
    dsimp only
    rw [if_pos (show g.currentStage.question - 1 < 0 by omega)]
    rw [if_neg (show ¬(g.currentStage.category - 1 < 0) by omega)]
    dsimp only
    rw [if_neg (show ¬(g.currentStage.set < 0) by omega)]
  · intro hq0 hc0 hspos
    unfold handlePrevious
    dsimp only
    rw [if_pos (show g.currentStage.question - 1 < 0 by omega)]
    rw [if_pos (show g.currentStage.category - 1 < 0 by omega)]
    dsimp only
    rw [if_neg (show ¬(g.currentStage.set - 1 < 0) by omega)]

/-- C9 witness: retreating from stage (4,0,0) borrows into (3,2,7). -/
theorem claim_C9_retreat_witness :
    (0 : Int) ≤ gameG.currentStage.set
    ∧ gameG.currentStage.question = 0
    ∧ gameG.currentStage.category = 0
    ∧ handlePrevious gameG
        = { gameG with currentStage := ⟨3, 2, 7⟩ } := by
  refine ⟨by decide, by decide, by decide, ?_⟩
  have h := (claim_C9_retreat gameG (by decide) (by decide)
    (by decide)).2.2.2 (by decide) (by decide) (by decide)
  rw [h]
  decide

/-- C10: when roster ids are distinct, `calculateSeasonStandings` returns
exactly one entry per roster team (the returned teamIds are a permutation
of the roster ids, each occurring once); a roster team appearing in no
eligible game keeps the all-zero record; and a score-mapping entry whose
team is missing from the standings map is skipped without altering the
map. -/
theorem claim_C10_roster (sid : String) (games : List Game)
    (teams : List Team)
    (hnd : (teams.map (fun tm => tm.id)).Nodup) :
    List.Perm ((calculateSeasonStandings sid games teams).map
        (fun st => st.teamId)) (teams.map (fun tm => tm.id))
    ∧ (∀ tm ∈ teams,
        ((calculateSeasonStandings sid games teams).map
          (fun st => st.teamId)).count tm.id = 1)
    ∧ (∀ tm ∈ teams,
        (∀ g ∈ games, seasonEligible sid g = true →
          tm.id ∉ g.participatingTeamIds) →
        zeroStandings tm ∈ calculateSeasonStandings sid games teams)
    ∧ (∀ (scores : List (String × Int))
        (m : List (String × RoyaltyStandings)) (e : String × Int),
        e.1 ∉ m.map Prod.fst → applyGameToTeam scores m e = m) := by
  have hinitshape := initStandings_shape teams hnd
  have hinv0 : ∀ kv ∈ initStandings teams, kv.2.teamId = kv.1 := by
    intro kv hkv
    rw [hinitshape] at hkv
    obtain ⟨tm, htm, heq⟩ := List.mem_map.mp hkv
    rw [← heq]
    rfl
  have hkeys : ((games.filter (seasonEligible sid)).foldl processGame
      (initStandings teams)).map Prod.fst = teams.map (fun tm => tm.id) := by
    rw [foldGames_keys, hinitshape, List.map_map]
    exact List.map_congr_left (fun _ _ => rfl)
  have hinv : ∀ kv ∈ (games.filter (seasonEligible sid)).foldl processGame
      (initStandings teams), kv.2.teamId = kv.1 :=
    teamId_inv_foldGames _ _ hinv0
  have hperm : List.Perm ((calculateSeasonStandings sid games teams).map
      (fun st => st.teamId)) (teams.map (fun tm => tm.id)) := by
    unfold calculateSeasonStandings
    dsimp only
    have hp := (List.perm_insertionSort
      (fun a b : RoyaltyStandings => b.points ≤ a.points)
      (((games.filter (seasonEligible sid)).foldl processGame
        (initStandings teams)).map (fun kv => kv.2))).map
      (fun st => st.teamId)
    rw [List.map_map] at hp
    have h1 : (((games.filter (seasonEligible sid)).foldl processGame
        (initStandings teams)).map
          ((fun st : RoyaltyStandings => st.teamId)
            ∘ (fun kv : String × RoyaltyStandings => kv.2)))
        = ((games.filter (seasonEligible sid)).foldl processGame
            (initStandings teams)).map Prod.fst :=
      List.map_congr_left (fun kv hkv => hinv kv hkv)
    rw [h1, hkeys] at hp
    exact hp
  refine ⟨hperm, ?_, ?_, ?_⟩
  · intro tm htm
    rw [hperm.count_eq]
    exact List.count_eq_one_of_mem hnd (List.mem_map.mpr ⟨tm, htm, rfl⟩)
  · intro tm htm hno
    have hzero : jsGet (initStandings teams) tm.id
        = some (zeroStandings tm) := by
      rw [hinitshape]
      exact jsGet_keymap (fun tm => tm.id) zeroStandings teams tm htm hnd
    have hnone : ∀ g ∈ games.filter (seasonEligible sid),
        jsGet (calculateGameScores g) tm.id = none := by
      intro g hgf
      obtain ⟨hg1, hg2⟩ := List.mem_filter.mp hgf
      rw [jsGet_calculateGameScores, if_neg (hno g hg1 hg2)]
    have hfinal : jsGet ((games.filter (seasonEligible sid)).foldl
        processGame (initStandings teams)) tm.id
          = some (zeroStandings tm) := by
      rw [foldGames_get _ _ _ hnone, hzero]
    have hmem := jsGet_mem hfinal
    unfold calculateSeasonStandings
    dsimp only
    apply (List.perm_insertionSort _ _).mem_iff.mpr
    exact List.mem_map.mpr ⟨(tm.id, zeroStandings tm), hmem, rfl⟩
  · intro scores m e he
    unfold applyGameToTeam
    exact objModify_of_not_mem _ he

/-- C10 witness: on the scenario season the standings hold exactly the
three roster teams. -/
theorem claim_C10_roster_witness :
    (rosterABC.map (fun tm => tm.id)).Nodup
    ∧ List.Perm ((calculateSeasonStandings "s1" [gameG] rosterABC).map
        (fun st => st.teamId)) (rosterABC.map (fun tm => tm.id)) :=
  ⟨by decide, (claim_C10_roster "s1" [gameG] rosterABC (by decide)).1⟩

end TNP
